import Mathlib

/-!
Verification of the inventory storage layer of `kustomizer`
(`pkg/inventory/storage.go`).

The embedding models:
- the `Entry` / `Inventory` data model and the `NewInventory` / `Diff`
  operations (these live in `pkg/inventory/inventory.go`, which is not part
  of the fragment; they are modelled from the specification, see the doc
  comments below);
- `ConfigMap` records, the Kubernetes client (`Get` / `Patch` / `Delete`)
  as an abstract interface over a state type, plus a concrete in-memory
  instantiation (`memClient`) whose state is a partial map from object keys
  to ConfigMaps;
- the four storage operations `ApplyInventory`, `GetInventory`,
  `DeleteInventory` and `GetInventoryStaleObjects` of
  `InventoryStorage`, translated line by line from `storage.go`.

Serialized blobs are modelled at the level of JSON syntax trees rather than
character strings: `json.Marshal` of a `[]Entry` produces a tree, and a
`Blob` is either a JSON tree or an unparseable string, so that both
decoding failure modes of `json.Unmarshal` (syntactically invalid input and
input of the wrong shape) are representable. Go's in-place mutation of the
`*Inventory` argument is made explicit: `GetInventory` returns the updated
inventory together with an optional error, and on every error path it
returns the argument unchanged, exactly as the Go code assigns to
`i.Entries` / `i.Source` / `i.Revision` only after all fallible steps.
-/

set_option autoImplicit false

namespace Kustomizer

/-- One managed-resource reference tracked by an inventory.

Modelled from the spec: `Entry` is declared in `pkg/inventory/inventory.go`,
which is outside the fragment. Per §3 it has a stable unique string `id`
and a `version` string that "is used for forward-compatible decoding, not
for diff comparisons". -/
structure Entry where
  id : String
  version : String
  deriving DecidableEq, Repr

/-- The aggregate for one deployment unit.

Modelled from the spec: `Inventory` is declared in
`pkg/inventory/inventory.go`, outside the fragment. Per §3 it has the
identity fields `name` / `namespace`, the `entries` set and the provenance
strings `source` / `revision`. Field names follow the Go struct fields that
`storage.go` accesses (`i.Name`, `i.Namespace`, `i.Entries`, `i.Source`,
`i.Revision`). -/
structure Inventory where
  Name : String
  Namespace : String
  Entries : List Entry
  Source : String
  Revision : String
  deriving DecidableEq, Repr

/-! ### JSON blobs

`storage.go` serializes `i.Entries` with `json.Marshal` and deserializes
with `json.Unmarshal` into `[]Entry`. We model JSON values as syntax trees
and a stored blob as either a tree or an unparseable string. -/

/-- A JSON value, at the level of syntax trees. -/
inductive Json where
  | null
  | str (s : String)
  | arr (elems : List Json)
  | obj (fields : List (String × Json))

/-- A string stored in a ConfigMap `Data` field: either well-formed JSON
(represented by its tree) or a string that is not valid JSON. -/
inductive Blob where
  | json (j : Json)
  | malformed (s : String)

/-- `json.Marshal` of one `Entry`: an object with the entry's two string
fields. Modelled from the spec (§3, §6): entries are serialized as a JSON
list of objects. -/
def marshalEntry (e : Entry) : Json :=
  .obj [("id", .str e.id), ("version", .str e.version)]

/-- `json.Marshal` of a `[]Entry` value: the JSON array of the marshalled
entries. `json.Marshal` cannot fail on a slice of structs of strings, so
this is total. -/
def marshalEntries (l : List Entry) : Blob :=
  .json (.arr (l.map marshalEntry))

/-- Reads a string-typed field out of a decoded JSON object the way
`json.Unmarshal` does: an absent field leaves the zero value `""`, a
present non-string field is an unmarshalling error. -/
def getStrField (fields : List (String × Json)) (k : String) : Except String String :=
  match fields.lookup k with
  | none => .ok ""
  | some (.str s) => .ok s
  | some _ => .error ("json: cannot unmarshal value into field " ++ k)

/-- `json.Unmarshal` of a single entry object. -/
def unmarshalEntry : Json → Except String Entry
  | .obj fields => do
    let i ← getStrField fields "id"
    let v ← getStrField fields "version"
    .ok { id := i, version := v }
  | _ => .error "json: cannot unmarshal value into Entry"

/-- `json.Unmarshal` of a blob into `[]Entry`: fails on unparseable input
and on input that is not an array of entry objects (`null` unmarshals into
a nil slice, as in Go). -/
def unmarshalEntries : Blob → Except String (List Entry)
  | .malformed _ => .error "invalid character in JSON input"
  | .json .null => .ok []
  | .json (.arr elems) => elems.mapM unmarshalEntry
  | .json _ => .error "json: cannot unmarshal value into []Entry"

/-! ### Time

`ApplyInventory` stamps a `time.Now().UTC().Format(time.RFC3339)`
annotation. We model an instant as Unix seconds and implement the
RFC3339/UTC rendering (civil-from-days conversion). -/

/-- An instant, as in Go's `time.Time`: seconds since the Unix epoch.
(`t.UTC()` changes only the display location, not the instant.) -/
structure Time where
  unixSec : Int
  deriving DecidableEq, Repr

/-- Zero-pads a number to two digits. -/
def pad2 (n : Nat) : String :=
  if n < 10 then "0" ++ toString n else toString n

/-- Zero-pads a number to four digits. -/
def pad4 (n : Nat) : String :=
  if n < 10 then "000" ++ toString n
  else if n < 100 then "00" ++ toString n
  else if n < 1000 then "0" ++ toString n
  else toString n

/-- Converts a count of days since 1970-01-01 to a civil (year, month,
day) date in the proleptic Gregorian calendar. -/
def civilFromDays (z : Int) : Int × Nat × Nat :=
  let z := z + 719468
  let era : Int := (if 0 ≤ z then z else z - 146096) / 146097
  let doe : Nat := (z - era * 146097).toNat
  let yoe : Nat := (doe - doe / 1460 + doe / 36524 - doe / 146096) / 365
  let y : Int := (yoe : Int) + era * 400
  let doy : Nat := doe - (365 * yoe + yoe / 4 - yoe / 100)
  let mp : Nat := (5 * doy + 2) / 153
  let d : Nat := doy - (153 * mp + 2) / 5 + 1
  let m : Nat := if mp < 10 then mp + 3 else mp - 9
  (if m ≤ 2 then y + 1 else y, m, d)

/-- `t.UTC().Format(time.RFC3339)`: the instant rendered as
`YYYY-MM-DDThh:mm:ssZ`. -/
def Time.utcRFC3339 (t : Time) : String :=
  let days : Int := t.unixSec.fdiv 86400
  let secs : Nat := (t.unixSec.fmod 86400).toNat
  let c := civilFromDays days
  pad4 c.1.toNat ++ "-" ++ pad2 c.2.1 ++ "-" ++ pad2 c.2.2 ++
    "T" ++ pad2 (secs / 3600) ++ ":" ++ pad2 (secs % 3600 / 60) ++
    ":" ++ pad2 (secs % 60) ++ "Z"

/-! ### ConfigMaps, the client interface, and errors -/

/-- `client.ObjectKey`: how the backend addresses a record. -/
structure ObjectKey where
  Name : String
  Namespace : String
  deriving DecidableEq, Repr

/-- The parts of a `corev1.ConfigMap` that `storage.go` reads or writes:
object metadata (name, namespace, labels, annotations) and the string-keyed
`Data` map, whose values we model as blobs. Go maps have unique keys; the
association lists produced by this development preserve that. -/
structure ConfigMap where
  Name : String
  Namespace : String
  Labels : List (String × String)
  Annotations : List (String × String)
  Data : List (String × Blob)

/-- `client.ObjectKeyFromObject`. -/
def objectKeyFromObject (cm : ConfigMap) : ObjectKey :=
  { Name := cm.Name, Namespace := cm.Namespace }

/-- An error returned by the Kubernetes client. `apierrors.IsNotFound`
distinguishes the `NotFound` status error from every other failure. -/
inductive K8sErr where
  | notFound (key : ObjectKey)
  | other (msg : String)
  deriving DecidableEq, Repr

/-- `apierrors.IsNotFound` on a client error. -/
def K8sErr.IsNotFound : K8sErr → Bool
  | .notFound _ => true
  | .other _ => false

/-- An error surfaced by the inventory storage layer:
- `k8s e`: an error of the underlying client returned verbatim;
- `missingData key`: the `fmt.Errorf("inventory data not found in
  ConfigMap/%s", cmKey)` error of `GetInventory`;
- `decoding msg`: a `json.Unmarshal` failure returned verbatim;
- `deleteFailed key e`: the `fmt.Errorf("failed to delete ConfigMap/%s,
  error: %w", cmKey, err)` wrapper of `DeleteInventory`;
- `diffFailed msg`: an error of `Inventory.Diff` returned verbatim by
  `GetInventoryStaleObjects`;
- `invalidArgument msg`: the constructor-validation error of the spec's
  error taxonomy (§7). -/
inductive InvErr where
  | k8s (e : K8sErr)
  | missingData (key : ObjectKey)
  | decoding (msg : String)
  | deleteFailed (key : ObjectKey) (e : K8sErr)
  | diffFailed (msg : String)
  | invalidArgument (msg : String)
  deriving DecidableEq, Repr

/-- `apierrors.IsNotFound` on a storage-layer error: true exactly on a
client `NotFound` (the `%w`-wrapped delete error unwraps, as
`errors.As`-based inspection does; `missingData` and `decoding` are plain
formatted errors, never `NotFound`). -/
def InvErr.IsNotFound : InvErr → Bool
  | .k8s e => e.IsNotFound
  | .deleteFailed _ e => e.IsNotFound
  | _ => false

/-- The Kubernetes client operations `storage.go` uses, abstracted over a
backend state `σ`: `Get` by key, `Patch` with `client.Apply` +
`ForceOwnership` + a single field owner (an upsert of the submitted
object), and `Delete`. `Get` does not change the backend; `Patch` and
`Delete` return the new backend state on success. -/
structure Client (σ : Type) where
  get : σ → ObjectKey → Except K8sErr ConfigMap
  patch : σ → ConfigMap → Except K8sErr σ
  delete : σ → ConfigMap → Except K8sErr σ

/-- `ssa.Owner`: the field-owner identity of the controller. -/
structure Owner where
  Group : String
  Field : String
  deriving DecidableEq, Repr

/-- The `inventoryKindName` constant of `storage.go`. -/
def inventoryKindName : String := "inventory"

/-- `InventoryStorage` manages the Inventory ConfigMap storage; it holds
the client (via `Manager.Client()`) and the `Owner`. -/
structure InventoryStorage (σ : Type) where
  client : Client σ
  Owner : Owner

namespace InventoryStorage

variable {σ : Type}

/-- `newConfigMap` of `storage.go`: the ConfigMap skeleton every storage
operation builds, named by the inventory identity and carrying the three
fixed labels. -/
def newConfigMap (m : InventoryStorage σ) (name ns : String) : ConfigMap :=
  { Name := name
    Namespace := ns
    Labels := [("app.kubernetes.io/name", name),
               ("app.kubernetes.io/component", inventoryKindName),
               ("app.kubernetes.io/created-by", m.Owner.Field)]
    Annotations := []
    Data := [] }

/-- `ApplyInventory` of `storage.go`: marshals the entries, builds the
ConfigMap with the last-applied-time annotation (plus source/revision when
non-empty) and the single `inventory` data key, and patches it with
server-side apply. `now` makes the `time.Now()` call explicit. -/
def ApplyInventory (m : InventoryStorage σ) (s : σ) (now : Time) (i : Inventory) :
    Except K8sErr σ :=
  let data := marshalEntries i.Entries
  let cm := m.newConfigMap i.Name i.Namespace
  let anns := [(m.Owner.Group ++ "/last-applied-time", now.utcRFC3339)]
  let anns := if i.Source ≠ "" then anns ++ [(m.Owner.Group ++ "/source", i.Source)] else anns
  let anns := if i.Revision ≠ "" then anns ++ [(m.Owner.Group ++ "/revision", i.Revision)] else anns
  let cm := { cm with Annotations := anns, Data := [(inventoryKindName, data)] }
  m.client.patch s cm

/-- The body of the `for k, v := range cm.GetAnnotations()` loop of
`GetInventory`: a key equal to `<group>/source` repopulates `Source`, one
equal to `<group>/revision` repopulates `Revision`, every other key is
ignored. -/
def annStep (g : String) (acc : Inventory) (kv : String × String) : Inventory :=
  if kv.1 = g ++ "/source" then { acc with Source := kv.2 }
  else if kv.1 = g ++ "/revision" then { acc with Revision := kv.2 }
  else acc

/-- `GetInventory` of `storage.go`: reads the record for the inventory's
identity, decodes the `inventory` blob into the entries, and repopulates
source/revision from the record's annotation map. Go mutates `i` in place;
here the (possibly updated) inventory is returned next to the optional
error, and every error path returns `i` unchanged, as the Go assignments
all come after the fallible steps. -/
def GetInventory (m : InventoryStorage σ) (s : σ) (i : Inventory) :
    Inventory × Option InvErr :=
  let cm0 := m.newConfigMap i.Name i.Namespace
  let cmKey := objectKeyFromObject cm0
  match m.client.get s cmKey with
  | .error e => (i, some (.k8s e))
  | .ok cm =>
    match cm.Data.lookup inventoryKindName with
    | none => (i, some (.missingData cmKey))
    | some blob =>
      match unmarshalEntries blob with
      | .error msg => (i, some (.decoding msg))
      | .ok entries =>
        let i := { i with Entries := entries }
        let i := cm.Annotations.foldl (annStep m.Owner.Group) i
        (i, none)

/-- `DeleteInventory` of `storage.go`: deletes the record; a `NotFound`
from the backend is swallowed, any other backend error is wrapped with the
record's key. Returns the new backend state next to the optional error. -/
def DeleteInventory (m : InventoryStorage σ) (s : σ) (i : Inventory) :
    σ × Option InvErr :=
  let cm := m.newConfigMap i.Name i.Namespace
  let cmKey := objectKeyFromObject cm
  match m.client.delete s cm with
  | .error e => if e.IsNotFound then (s, none) else (s, some (.deleteFailed cmKey e))
  | .ok s' => (s', none)

end InventoryStorage

/-- An inventory with the given identity, no entries, and empty provenance:
the value `NewInventory` constructs on success, and the fresh inventory
`GetInventoryStaleObjects` builds from the desired inventory's identity. -/
def emptyInventory (name ns : String) : Inventory :=
  { Name := name, Namespace := ns, Entries := [], Source := "", Revision := "" }

/-- Modelled from the spec: `NewInventory` lives in
`pkg/inventory/inventory.go`, outside the fragment. Per §4.1 it "constructs
an empty inventory with given identity; fails with `InvalidArgument` if
`name` or `namespace` is empty". -/
def NewInventory (name ns : String) : Except InvErr Inventory :=
  if name = "" ∨ ns = "" then
    .error (.invalidArgument "inventory name and namespace are required")
  else
    .ok (emptyInventory name ns)

/-- Modelled from the spec: `Inventory.Diff` lives in
`pkg/inventory/inventory.go`, outside the fragment. Per §4.1 it is a pure
function returning "every entry present in the receiver (the 'old'
inventory) whose `id` does not appear in `other` (the 'new' inventory)",
deciding staleness by `id` identity only, preserving the receiver's entry
order, and failing "only on malformed input (e.g., an Entry with empty
`id`)". `storage.go` turns the stale entries into object references
one-for-one, so the result is modelled as the stale entries themselves. -/
def Inventory.Diff (inv target : Inventory) : Except String (List Entry) :=
  if inv.Entries.any (fun e => e.id = "") || target.Entries.any (fun e => e.id = "") then
    .error "invalid entry: empty object id"
  else
    .ok (inv.Entries.filter (fun e => target.Entries.all (fun o => o.id ≠ e.id)))

namespace InventoryStorage

variable {σ : Type}

/-- `GetInventoryStaleObjects` of `storage.go`: loads the previously
persisted inventory into a fresh inventory built by
`NewInventory(i.Name, i.Namespace)` (whose success value is the empty
inventory with that identity), returns an empty list when nothing is
persisted (`NotFound`), propagates any other error, and otherwise returns
the diff of the existing inventory against the desired one. -/
def GetInventoryStaleObjects (m : InventoryStorage σ) (s : σ) (i : Inventory) :
    Except InvErr (List Entry) :=
  let existingInventory := emptyInventory i.Name i.Namespace
  match m.GetInventory s existingInventory with
  | (_, some e) => if e.IsNotFound then .ok [] else .error e
  | (existing, none) =>
    match existing.Diff i with
    | .error msg => .error (.diffFailed msg)
    | .ok objects => .ok objects

end InventoryStorage

/-! ### A concrete in-memory backend

The simplest faithful instantiation of the client interface: the backend
state is a partial map from object keys to ConfigMaps, `Patch` with
server-side apply and a single forced field owner upserts the submitted
object, `Get` looks the key up (a `NotFound` status error when absent), and
`Delete` removes the key (a `NotFound` status error when absent, as the
API server reports for a delete of a nonexistent object). -/

/-- The in-memory backend state. -/
def Store : Type := ObjectKey → Option ConfigMap

/-- `Get` against the in-memory backend. -/
def memGet (s : Store) (key : ObjectKey) : Except K8sErr ConfigMap :=
  match s key with
  | some cm => .ok cm
  | none => .error (.notFound key)

/-- `Patch` with `client.Apply` against the in-memory backend: an upsert
of the submitted object at its own key. -/
def memPatch (s : Store) (cm : ConfigMap) : Except K8sErr Store :=
  .ok (fun k => if k = objectKeyFromObject cm then some cm else s k)

/-- `Delete` against the in-memory backend: removes the object's key, a
`NotFound` status error when it is absent. -/
def memDelete (s : Store) (cm : ConfigMap) : Except K8sErr Store :=
  let key := objectKeyFromObject cm
  match s key with
  | some _ => .ok (fun k => if k = key then none else s k)
  | none => .error (.notFound key)

/-- The in-memory client. -/
def memClient : Client Store :=
  { get := memGet, patch := memPatch, delete := memDelete }

/-- An `InventoryStorage` over the in-memory backend. -/
def memStorage (o : Owner) : InventoryStorage Store :=
  { client := memClient, Owner := o }

/-- The empty in-memory backend. -/
def emptyStore : Store := fun _ => none

/-- The annotation map `ApplyInventory` sets on the ConfigMap: the
`last-applied-time` stamp always, `source` and `revision` only when the
inventory's fields are non-empty. -/
def applyAnns (o : Owner) (now : Time) (i : Inventory) : List (String × String) :=
  let anns := [(o.Group ++ "/last-applied-time", now.utcRFC3339)]
  let anns := if i.Source ≠ "" then anns ++ [(o.Group ++ "/source", i.Source)] else anns
  if i.Revision ≠ "" then anns ++ [(o.Group ++ "/revision", i.Revision)] else anns

/-- The ConfigMap `ApplyInventory` submits to the patch call: the record
skeleton for the inventory's identity with the apply-time annotations and
the single `inventory` data key holding the marshalled entries. -/
def appliedConfigMap (o : Owner) (now : Time) (i : Inventory) : ConfigMap :=
  { Name := i.Name
    Namespace := i.Namespace
    Labels := [("app.kubernetes.io/name", i.Name),
               ("app.kubernetes.io/component", inventoryKindName),
               ("app.kubernetes.io/created-by", o.Field)]
    Annotations := applyAnns o now i
    Data := [(inventoryKindName, marshalEntries i.Entries)] }

/-! ### Sample values for concrete witnesses -/

/-- A sample owner. -/
def sampleOwner : Owner := { Group := "kustomizer.dev", Field := "kustomizer" }

/-- A sample previously-persisted inventory (`{a, b, c}` at `app`/`ns`). -/
def sampleOld : Inventory :=
  { Name := "app", Namespace := "ns"
    Entries := [⟨"a", "v1"⟩, ⟨"b", "v1"⟩, ⟨"c", "v1"⟩]
    Source := "git", Revision := "r1" }

/-- A sample desired inventory (`{b, c, d}` at `app`/`ns`). -/
def sampleNew : Inventory :=
  { Name := "app", Namespace := "ns"
    Entries := [⟨"b", "v2"⟩, ⟨"c", "v2"⟩, ⟨"d", "v2"⟩]
    Source := "git", Revision := "r2" }

/-- A sample backend holding the record `ApplyInventory` writes for
`sampleOld` at `(app, ns)`. -/
def sampleStore : Store := fun k =>
  if k = ⟨"app", "ns"⟩ then some (appliedConfigMap sampleOwner ⟨0⟩ sampleOld) else none

end Kustomizer

/-! ## Theorems -/

namespace Kustomizer

/-- Appending to a fixed string on the left is injective. -/
theorem str_append_cancel_left {s a b : String} (h : s ++ a = s ++ b) : a = b := by
  have hd : (s ++ a).data = (s ++ b).data := congrArg String.data h
  simp only [String.data_append] at hd
  exact String.ext (List.append_cancel_left hd)

/-- Two entry lists with the same ids agree on any `all` over ids. -/
theorem all_congr_of_map_id (p : String → Bool) :
    ∀ l1 l2 : List Entry, l1.map Entry.id = l2.map Entry.id →
      (l1.all fun o => p o.id) = (l2.all fun o => p o.id) := by
  intro l1
  induction l1 with
  | nil => intro l2 h; cases l2 <;> simp_all
  | cons a t ih =>
    intro l2 h
    cases l2 with
    | nil => simp at h
    | cons b t2 =>
      simp only [List.map_cons, List.cons.injEq] at h
      simp [List.all_cons, h.1, ih t2 h.2]

/-- Two entry lists with the same ids agree on any `any` over ids. -/
theorem any_congr_of_map_id (p : String → Bool) :
    ∀ l1 l2 : List Entry, l1.map Entry.id = l2.map Entry.id →
      (l1.any fun o => p o.id) = (l2.any fun o => p o.id) := by
  intro l1
  induction l1 with
  | nil => intro l2 h; cases l2 <;> simp_all
  | cons a t ih =>
    intro l2 h
    cases l2 with
    | nil => simp at h
    | cons b t2 =>
      simp only [List.map_cons, List.cons.injEq] at h
      simp [List.any_cons, h.1, ih t2 h.2]

/-- C2: `Diff(old, new)` returns exactly the entries of `old` whose id does
not occur among the ids of `new`'s entries (stated both as the literal
filter and by membership), its result depends on `new` only through the
ids (never version/provenance fields), and consequently `Diff(A, A)` is
empty, `Diff(A, empty)` is `A`'s entries, and `Diff(empty, A)` is empty.
The hypotheses discharge `Diff`'s malformed-input guard (no empty ids). -/
theorem diff_stale_by_id_only_C2 (old new : Inventory)
    (hold : ∀ e ∈ old.Entries, e.id ≠ "")
    (hnew : ∀ e ∈ new.Entries, e.id ≠ "") :
    old.Diff new = .ok (old.Entries.filter (fun e => new.Entries.all (fun o => o.id ≠ e.id)))
    ∧ (∀ l, old.Diff new = .ok l →
        ∀ e, e ∈ l ↔ e ∈ old.Entries ∧ ∀ o ∈ new.Entries, o.id ≠ e.id)
    ∧ (∀ new2 : Inventory, new2.Entries.map Entry.id = new.Entries.map Entry.id →
        old.Diff new2 = old.Diff new)
    ∧ old.Diff old = .ok []
    ∧ old.Diff (emptyInventory new.Name new.Namespace) = .ok old.Entries
    ∧ (emptyInventory old.Name old.Namespace).Diff new = .ok [] := by
  have hao : old.Entries.any (fun e => e.id = "") = false := by
    simp only [List.any_eq_false, decide_eq_true_eq]
    exact hold
  have han : new.Entries.any (fun e => e.id = "") = false := by
    simp only [List.any_eq_false, decide_eq_true_eq]
    exact hnew
  refine ⟨?_, ?_, ?_, ?_, ?_, ?_⟩
  · simp [Inventory.Diff, hao, han]
  · intro l hl e
    simp only [Inventory.Diff, hao, han, Bool.or_self, Bool.false_eq_true, if_neg,
      ite_false, Except.ok.injEq] at hl
    subst hl
    simp [List.mem_filter, List.all_eq_true]
  · intro new2 hids
    have h1 : (new2.Entries.any fun e => decide (e.id = ""))
        = (new.Entries.any fun e => decide (e.id = "")) :=
      any_congr_of_map_id (fun s => decide (s = "")) _ _ hids
    have h2 : (fun e : Entry => new2.Entries.all fun o => decide (o.id ≠ e.id))
        = (fun e : Entry => new.Entries.all fun o => decide (o.id ≠ e.id)) :=
      funext fun e => all_congr_of_map_id (fun s => decide (s ≠ e.id)) _ _ hids
    simp only [Inventory.Diff, h1, h2]
  · simp only [Inventory.Diff, hao, Bool.or_self, Bool.false_eq_true, if_neg, ite_false,
      Except.ok.injEq]
    rw [List.filter_eq_nil_iff]
    intro e he
    simp only [List.all_eq_true, decide_eq_true_eq, not_forall]
    exact ⟨e, he, by simp⟩
  · simp [Inventory.Diff, hao, emptyInventory]
  · simp [Inventory.Diff, han, emptyInventory]

/-- Concrete instance of `diff_stale_by_id_only_C2` on the spec's §8
scenario: old `{a, b, c}`, new `{b, c, d}`, stale exactly `[a]`. -/
theorem diff_stale_by_id_only_C2_witness :
    (∀ e ∈ sampleOld.Entries, e.id ≠ "")
    ∧ (∀ e ∈ sampleNew.Entries, e.id ≠ "")
    ∧ sampleOld.Diff sampleNew = .ok [⟨"a", "v1"⟩]
    ∧ sampleOld.Diff sampleOld = .ok [] := by
  refine ⟨by decide, by decide, ?_, ?_⟩
  · have h := (diff_stale_by_id_only_C2 sampleOld sampleNew (by decide) (by decide)).1
    rw [h]
    rfl
  · exact (diff_stale_by_id_only_C2 sampleOld sampleNew (by decide) (by decide)).2.2.2.1

/-- C6: `NewInventory` builds an empty inventory with the given identity
and fails with `InvalidArgument` exactly on an empty name or namespace. -/
theorem new_inventory_validates_identity_C6 (name ns : String) :
    ((name = "" ∨ ns = "") →
      ∃ msg, NewInventory name ns = .error (.invalidArgument msg))
    ∧ (name ≠ "" → ns ≠ "" →
      NewInventory name ns =
        .ok { Name := name, Namespace := ns, Entries := [], Source := "", Revision := "" }) := by
  constructor
  · intro h
    refine ⟨"inventory name and namespace are required", ?_⟩
    simp [NewInventory, h]
  · intro h1 h2
    simp [NewInventory, h1, h2, emptyInventory]

/-- Concrete instance of `new_inventory_validates_identity_C6`: empty name
is rejected, a non-empty identity yields the empty inventory. -/
theorem new_inventory_validates_identity_C6_witness :
    (∃ msg, NewInventory "" "ns" = .error (.invalidArgument msg))
    ∧ NewInventory "app" "ns" =
        .ok { Name := "app", Namespace := "ns", Entries := [], Source := "", Revision := "" } := by
  constructor
  · exact (new_inventory_validates_identity_C6 "" "ns").1 (Or.inl rfl)
  · exact (new_inventory_validates_identity_C6 "app" "ns").2 (by decide) (by decide)

/-- C5: `DeleteInventory` swallows a `NotFound` from the backing store and
wraps every other backend error with the record's key; against the
in-memory backend two consecutive deletes of the same identity both
return no error. -/
theorem delete_inventory_idempotent_C5 {σ : Type} (c : Client σ) (o : Owner) (s : σ)
    (i : Inventory) (st : Store) :
    ((InventoryStorage.mk c o).DeleteInventory s i =
      match c.delete s ((InventoryStorage.mk c o).newConfigMap i.Name i.Namespace) with
      | .ok s' => (s', none)
      | .error e =>
        if e.IsNotFound then (s, none)
        else (s, some (.deleteFailed
          (objectKeyFromObject ((InventoryStorage.mk c o).newConfigMap i.Name i.Namespace)) e)))
    ∧ ((memStorage o).DeleteInventory st i).2 = none
    ∧ ((memStorage o).DeleteInventory ((memStorage o).DeleteInventory st i).1 i).2 = none := by
  refine ⟨?_, ?_, ?_⟩
  · simp only [InventoryStorage.DeleteInventory]
    cases hc : c.delete s ((InventoryStorage.mk c o).newConfigMap i.Name i.Namespace) <;> simp
  · simp only [InventoryStorage.DeleteInventory, memStorage, memClient, memDelete,
      InventoryStorage.newConfigMap, objectKeyFromObject]
    cases hst : st ⟨i.Name, i.Namespace⟩ <;> simp [hst, K8sErr.IsNotFound]
  · simp only [InventoryStorage.DeleteInventory, memStorage, memClient, memDelete,
      InventoryStorage.newConfigMap, objectKeyFromObject]
    cases hst : st ⟨i.Name, i.Namespace⟩ <;> simp [hst, K8sErr.IsNotFound]

/-- C1: `GetInventoryStaleObjects` performs a `Get` on a fresh inventory
built from the desired inventory's name and namespace; a `NotFound`
failure yields an empty list and no error, any other failure is returned
as is, and on success the result is exactly `Diff(existing, desired)`. -/
theorem stale_objects_get_then_diff_C1 {σ : Type} (c : Client σ) (o : Owner) (s : σ)
    (i : Inventory) :
    (∀ existing e,
      (InventoryStorage.mk c o).GetInventory s (emptyInventory i.Name i.Namespace)
        = (existing, some e) →
      (e.IsNotFound = true → (InventoryStorage.mk c o).GetInventoryStaleObjects s i = .ok [])
      ∧ (e.IsNotFound = false →
          (InventoryStorage.mk c o).GetInventoryStaleObjects s i = .error e))
    ∧ (∀ existing,
      (InventoryStorage.mk c o).GetInventory s (emptyInventory i.Name i.Namespace)
        = (existing, none) →
      (InventoryStorage.mk c o).GetInventoryStaleObjects s i =
        match existing.Diff i with
        | .ok objects => .ok objects
        | .error msg => .error (.diffFailed msg)) := by
  constructor
  · intro existing e hge
    constructor
    · intro hnf
      simp [InventoryStorage.GetInventoryStaleObjects, hge, hnf]
    · intro hnf
      simp [InventoryStorage.GetInventoryStaleObjects, hge, hnf]
  · intro existing hge
    simp only [InventoryStorage.GetInventoryStaleObjects, hge]
    cases hd : existing.Diff i <;> simp [hd]

/-- `GetInventory` unfolded: the case analysis on the client read, the
blob lookup and the decode, ending in the annotation fold. -/
theorem getInventory_spec {σ : Type} (m : InventoryStorage σ) (s : σ) (i : Inventory) :
    m.GetInventory s i =
      match m.client.get s ⟨i.Name, i.Namespace⟩ with
      | .error e => (i, some (.k8s e))
      | .ok cm =>
        match cm.Data.lookup inventoryKindName with
        | none => (i, some (.missingData ⟨i.Name, i.Namespace⟩))
        | some blob =>
          match unmarshalEntries blob with
          | .error msg => (i, some (.decoding msg))
          | .ok entries =>
            (cm.Annotations.foldl (InventoryStorage.annStep m.Owner.Group)
              { i with Entries := entries }, none) := rfl

/-- `ApplyInventory` against the in-memory backend always succeeds and
upserts the submitted ConfigMap at the inventory's key. -/
theorem mem_apply (o : Owner) (st : Store) (now : Time) (i : Inventory) :
    (memStorage o).ApplyInventory st now i =
      .ok (fun k =>
        if k = ⟨i.Name, i.Namespace⟩ then some (appliedConfigMap o now i) else st k) := rfl

/-- Unmarshalling inverts marshalling on every entry list. -/
theorem unmarshal_marshal_entries (l : List Entry) :
    unmarshalEntries (marshalEntries l) = .ok l := by
  show (l.map marshalEntry).mapM unmarshalEntry = .ok l
  induction l with
  | nil => rfl
  | cons a t ih =>
    rw [List.map_cons, List.mapM_cons, show unmarshalEntry (marshalEntry a) = .ok a from rfl, ih]
    rfl

/-- The `last-applied-time` and `source` annotation keys differ under any
owner group. -/
theorem lat_ne_source (g : String) : ¬(g ++ "/last-applied-time" = g ++ "/source") :=
  fun h => by simpa using str_append_cancel_left h

/-- The `last-applied-time` and `revision` annotation keys differ under
any owner group. -/
theorem lat_ne_revision (g : String) : ¬(g ++ "/last-applied-time" = g ++ "/revision") :=
  fun h => by simpa using str_append_cancel_left h

/-- The `revision` and `source` annotation keys differ under any owner
group. -/
theorem revision_ne_source (g : String) : ¬(g ++ "/revision" = g ++ "/source") :=
  fun h => by simpa using str_append_cancel_left h

/-- The `source` and `revision` annotation keys differ under any owner
group. -/
theorem source_ne_revision (g : String) : ¬(g ++ "/source" = g ++ "/revision") :=
  fun h => by simpa using str_append_cancel_left h

/-- The annotation-loop step never changes the inventory name. -/
theorem annStep_Name (g : String) (acc : Inventory) (kv : String × String) :
    (InventoryStorage.annStep g acc kv).Name = acc.Name := by
  simp only [InventoryStorage.annStep]
  split_ifs <;> rfl

/-- The annotation-loop step never changes the inventory namespace. -/
theorem annStep_Namespace (g : String) (acc : Inventory) (kv : String × String) :
    (InventoryStorage.annStep g acc kv).Namespace = acc.Namespace := by
  simp only [InventoryStorage.annStep]
  split_ifs <;> rfl

/-- The annotation-loop step never changes the entries. -/
theorem annStep_Entries (g : String) (acc : Inventory) (kv : String × String) :
    (InventoryStorage.annStep g acc kv).Entries = acc.Entries := by
  simp only [InventoryStorage.annStep]
  split_ifs <;> rfl

/-- The annotation-loop step leaves `Source` alone unless the key is
`<group>/source`. -/
theorem annStep_Source_of_ne (g : String) (acc : Inventory) (kv : String × String)
    (h : kv.1 ≠ g ++ "/source") :
    (InventoryStorage.annStep g acc kv).Source = acc.Source := by
  simp only [InventoryStorage.annStep, if_neg h]
  split_ifs <;> rfl

/-- The annotation-loop step leaves `Revision` alone unless the key is
`<group>/revision`. -/
theorem annStep_Revision_of_ne (g : String) (acc : Inventory) (kv : String × String)
    (h : kv.1 ≠ g ++ "/revision") :
    (InventoryStorage.annStep g acc kv).Revision = acc.Revision := by
  simp only [InventoryStorage.annStep]
  split_ifs <;> simp_all

/-- The annotation loop never changes the inventory name. -/
theorem foldl_annStep_Name (g : String) :
    ∀ (anns : List (String × String)) (acc : Inventory),
      (anns.foldl (InventoryStorage.annStep g) acc).Name = acc.Name := by
  intro anns
  induction anns with
  | nil => intro acc; rfl
  | cons kv t ih => intro acc; rw [List.foldl_cons, ih, annStep_Name]

/-- The annotation loop never changes the inventory namespace. -/
theorem foldl_annStep_Namespace (g : String) :
    ∀ (anns : List (String × String)) (acc : Inventory),
      (anns.foldl (InventoryStorage.annStep g) acc).Namespace = acc.Namespace := by
  intro anns
  induction anns with
  | nil => intro acc; rfl
  | cons kv t ih => intro acc; rw [List.foldl_cons, ih, annStep_Namespace]

/-- The annotation loop never changes the entries. -/
theorem foldl_annStep_Entries (g : String) :
    ∀ (anns : List (String × String)) (acc : Inventory),
      (anns.foldl (InventoryStorage.annStep g) acc).Entries = acc.Entries := by
  intro anns
  induction anns with
  | nil => intro acc; rfl
  | cons kv t ih => intro acc; rw [List.foldl_cons, ih, annStep_Entries]

/-- When no annotation uses the `<group>/source` key, the loop leaves
`Source` untouched. -/
theorem foldl_annStep_Source_of_absent (g : String) :
    ∀ (anns : List (String × String)) (acc : Inventory),
      (∀ kv ∈ anns, kv.1 ≠ g ++ "/source") →
      (anns.foldl (InventoryStorage.annStep g) acc).Source = acc.Source := by
  intro anns
  induction anns with
  | nil => intro acc _; rfl
  | cons kv t ih =>
    intro acc h
    rw [List.foldl_cons, ih _ (fun kv' hm => h kv' (List.mem_cons_of_mem kv hm)),
      annStep_Source_of_ne g acc kv (h kv (List.mem_cons_self kv t))]

/-- When no annotation uses the `<group>/revision` key, the loop leaves
`Revision` untouched. -/
theorem foldl_annStep_Revision_of_absent (g : String) :
    ∀ (anns : List (String × String)) (acc : Inventory),
      (∀ kv ∈ anns, kv.1 ≠ g ++ "/revision") →
      (anns.foldl (InventoryStorage.annStep g) acc).Revision = acc.Revision := by
  intro anns
  induction anns with
  | nil => intro acc _; rfl
  | cons kv t ih =>
    intro acc h
    rw [List.foldl_cons, ih _ (fun kv' hm => h kv' (List.mem_cons_of_mem kv hm)),
      annStep_Revision_of_ne g acc kv (h kv (List.mem_cons_self kv t))]

/-- Over an annotation map with distinct keys (Go map semantics), the loop
ends with `Source` equal to the `<group>/source` value when that key is
present and to the initial `Source` otherwise. -/
theorem foldl_annStep_Source (g : String) :
    ∀ (anns : List (String × String)) (acc : Inventory),
      (anns.map Prod.fst).Nodup →
      (anns.foldl (InventoryStorage.annStep g) acc).Source
        = ((anns.lookup (g ++ "/source")).getD acc.Source) := by
  intro anns
  induction anns with
  | nil => intro acc _; rfl
  | cons kv t ih =>
    intro acc hnd
    rw [List.map_cons, List.nodup_cons] at hnd
    rw [List.foldl_cons]
    by_cases hk : kv.1 = g ++ "/source"
    · have hb : ((g ++ "/source") == kv.1) = true := beq_iff_eq.2 hk.symm
      have habs : ∀ kv' ∈ t, kv'.1 ≠ g ++ "/source" := by
        intro kv' hm heq
        exact hnd.1 (hk ▸ heq ▸ List.mem_map_of_mem Prod.fst hm)
      rw [foldl_annStep_Source_of_absent g t _ habs]
      simp [List.lookup, hb, InventoryStorage.annStep, hk]
    · have hb : ((g ++ "/source") == kv.1) = false :=
        beq_eq_false_iff_ne.2 (fun h => hk h.symm)
      have hl : ((kv.1, kv.2) :: t).lookup (g ++ "/source") = t.lookup (g ++ "/source") := by
        simp [List.lookup, hb]
      rw [show (kv.1, kv.2) = kv from rfl] at hl
      rw [hl, ih _ hnd.2, annStep_Source_of_ne g acc kv hk]

/-- Over an annotation map with distinct keys, the loop ends with
`Revision` equal to the `<group>/revision` value when that key is present
and to the initial `Revision` otherwise. -/
theorem foldl_annStep_Revision (g : String) :
    ∀ (anns : List (String × String)) (acc : Inventory),
      (anns.map Prod.fst).Nodup →
      (anns.foldl (InventoryStorage.annStep g) acc).Revision
        = ((anns.lookup (g ++ "/revision")).getD acc.Revision) := by
  intro anns
  induction anns with
  | nil => intro acc _; rfl
  | cons kv t ih =>
    intro acc hnd
    rw [List.map_cons, List.nodup_cons] at hnd
    rw [List.foldl_cons]
    by_cases hk : kv.1 = g ++ "/revision"
    · have hb : ((g ++ "/revision") == kv.1) = true := beq_iff_eq.2 hk.symm
      have habs : ∀ kv' ∈ t, kv'.1 ≠ g ++ "/revision" := by
        intro kv' hm heq
        exact hnd.1 (hk ▸ heq ▸ List.mem_map_of_mem Prod.fst hm)
      rw [foldl_annStep_Revision_of_absent g t _ habs]
      simp [List.lookup, hb, InventoryStorage.annStep, hk, revision_ne_source g]
    · have hb : ((g ++ "/revision") == kv.1) = false :=
        beq_eq_false_iff_ne.2 (fun h => hk h.symm)
      have hl : ((kv.1, kv.2) :: t).lookup (g ++ "/revision") = t.lookup (g ++ "/revision") := by
        simp [List.lookup, hb]
      rw [show (kv.1, kv.2) = kv from rfl] at hl
      rw [hl, ih _ hnd.2, annStep_Revision_of_ne g acc kv hk]

/-- The annotation loop over exactly the annotations `ApplyInventory`
writes: `Source`/`Revision` are repopulated from the inventory that was
applied whenever those were non-empty, and kept otherwise. -/
theorem foldl_applyAnns (o : Owner) (now : Time) (i : Inventory) (acc : Inventory) :
    (applyAnns o now i).foldl (InventoryStorage.annStep o.Group) acc
      = { acc with Source := if i.Source = "" then acc.Source else i.Source,
                   Revision := if i.Revision = "" then acc.Revision else i.Revision } := by
  have h1 := lat_ne_source o.Group
  have h2 := lat_ne_revision o.Group
  have h3 := revision_ne_source o.Group
  have h4 := source_ne_revision o.Group
  by_cases hs : i.Source = "" <;> by_cases hr : i.Revision = "" <;>
    simp [applyAnns, InventoryStorage.annStep, hs, hr, h1, h2, h3, h4]

/-- Concrete instance of `stale_objects_get_then_diff_C1`: on the empty
backend the internal `Get` fails `NotFound` and the stale-object query
returns `([], nil)`; on a backend holding `{a, b, c}` it returns the diff
against desired `{b, c, d}`. -/
theorem stale_objects_get_then_diff_C1_witness :
    (memStorage sampleOwner).GetInventoryStaleObjects emptyStore sampleNew = .ok [] := by
  have h := (stale_objects_get_then_diff_C1 memClient sampleOwner emptyStore sampleNew).1
    (emptyInventory sampleNew.Name sampleNew.Namespace)
    (.k8s (.notFound ⟨"app", "ns"⟩)) (by rfl)
  exact h.1 rfl

/-- Rebuilding an inventory from its own fields gives it back. -/
theorem inventory_eta (i : Inventory) (s r : String) (hs : s = i.Source) (hr : r = i.Revision) :
    ({ Name := i.Name, Namespace := i.Namespace, Entries := i.Entries,
       Source := s, Revision := r } : Inventory) = i := by
  subst hs; subst hr; rfl

/-- C3: round-trip — after a successful `ApplyInventory` of an inventory
with valid identity, a `GetInventory` into a fresh inventory with the same
name and namespace succeeds and returns an inventory with exactly the
applied entries, source and revision (and the same identity): the result
is `i` itself. -/
theorem apply_get_round_trip_C3 (o : Owner) (st : Store) (now : Time) (i : Inventory)
    (_hname : i.Name ≠ "") (_hns : i.Namespace ≠ "") :
    ∃ st', (memStorage o).ApplyInventory st now i = .ok st'
      ∧ (memStorage o).GetInventory st' (emptyInventory i.Name i.Namespace) = (i, none) := by
  refine ⟨_, mem_apply o st now i, ?_⟩
  rw [getInventory_spec]
  by_cases hs : i.Source = "" <;> by_cases hr : i.Revision = "" <;>
    simp [memStorage, memClient, memGet, emptyInventory, appliedConfigMap, List.lookup,
      unmarshal_marshal_entries, foldl_applyAnns, hs, hr] <;>
    exact inventory_eta i _ _ (by simp_all) (by simp_all)

/-- Concrete instance of `apply_get_round_trip_C3`: applying `sampleOld`
to the empty backend and reading it back returns `sampleOld`. -/
theorem apply_get_round_trip_C3_witness :
    sampleOld.Name ≠ "" ∧ sampleOld.Namespace ≠ ""
    ∧ ∃ st', (memStorage sampleOwner).ApplyInventory emptyStore ⟨0⟩ sampleOld = .ok st'
      ∧ (memStorage sampleOwner).GetInventory st'
          (emptyInventory sampleOld.Name sampleOld.Namespace) = (sampleOld, none) :=
  ⟨by decide, by decide,
    apply_get_round_trip_C3 sampleOwner emptyStore ⟨0⟩ sampleOld (by decide) (by decide)⟩

/-- C4: against the in-memory backend, `GetInventory` fails `NotFound`
exactly when no record exists for the identity, `missingData` exactly when
the record exists without the `inventory` blob key, `decoding` exactly
when the blob is present but does not unmarshal into entries — and on
every error the passed-in inventory is returned unmodified. -/
theorem get_error_taxonomy_C4 (o : Owner) (st : Store) (i : Inventory) :
    (((memStorage o).GetInventory st i).2 = some (.k8s (.notFound ⟨i.Name, i.Namespace⟩))
      ↔ st ⟨i.Name, i.Namespace⟩ = none)
    ∧ (((memStorage o).GetInventory st i).2 = some (.missingData ⟨i.Name, i.Namespace⟩)
      ↔ ∃ cm, st ⟨i.Name, i.Namespace⟩ = some cm
          ∧ cm.Data.lookup inventoryKindName = none)
    ∧ ((∃ msg, ((memStorage o).GetInventory st i).2 = some (.decoding msg))
      ↔ ∃ cm blob, st ⟨i.Name, i.Namespace⟩ = some cm
          ∧ cm.Data.lookup inventoryKindName = some blob
          ∧ ∃ msg2, unmarshalEntries blob = .error msg2)
    ∧ (((memStorage o).GetInventory st i).2 ≠ none →
        ((memStorage o).GetInventory st i).1 = i) := by
  cases hst : st ⟨i.Name, i.Namespace⟩ with
  | none =>
    have hr : (memStorage o).GetInventory st i
        = (i, some (.k8s (.notFound ⟨i.Name, i.Namespace⟩))) := by
      rw [getInventory_spec]
      simp [memStorage, memClient, memGet, hst]
    rw [hr]
    refine ⟨iff_of_true rfl rfl, iff_of_false (by simp) ?_, iff_of_false (by simp) ?_,
      fun _ => rfl⟩
    · rintro ⟨cm, hcm, -⟩
      exact Option.noConfusion hcm
    · rintro ⟨cm, blob, hcm, -, -⟩
      exact Option.noConfusion hcm
  | some cm =>
    cases hd : cm.Data.lookup inventoryKindName with
    | none =>
      have hr : (memStorage o).GetInventory st i
          = (i, some (.missingData ⟨i.Name, i.Namespace⟩)) := by
        rw [getInventory_spec]
        simp [memStorage, memClient, memGet, hst, hd]
      rw [hr]
      refine ⟨iff_of_false (by simp) ?_, iff_of_true rfl ⟨cm, rfl, hd⟩,
        iff_of_false (by simp) ?_, fun _ => rfl⟩
      · intro hnone
        exact Option.noConfusion hnone
      · rintro ⟨cm', blob, hcm', hblob, -⟩
        obtain rfl := Option.some.inj hcm'
        rw [hd] at hblob
        exact Option.noConfusion hblob
    | some blob =>
      cases hu : unmarshalEntries blob with
      | error msg =>
        have hr : (memStorage o).GetInventory st i = (i, some (.decoding msg)) := by
          rw [getInventory_spec]
          simp [memStorage, memClient, memGet, hst, hd, hu]
        rw [hr]
        refine ⟨iff_of_false (by simp) ?_, iff_of_false (by simp) ?_,
          iff_of_true ⟨msg, rfl⟩ ⟨cm, blob, rfl, hd, msg, hu⟩, fun _ => rfl⟩
        · intro hnone
          exact Option.noConfusion hnone
        · rintro ⟨cm', hcm', hnone⟩
          obtain rfl := Option.some.inj hcm'
          rw [hd] at hnone
          exact Option.noConfusion hnone
      | ok entries =>
        have hr : (memStorage o).GetInventory st i
            = (cm.Annotations.foldl (InventoryStorage.annStep o.Group)
                { i with Entries := entries }, none) := by
          rw [getInventory_spec]
          simp [memStorage, memClient, memGet, hst, hd, hu]
        rw [hr]
        refine ⟨iff_of_false (by simp) ?_, iff_of_false (by simp) ?_,
          iff_of_false ?_ ?_, fun h => absurd rfl h⟩
        · intro hnone
          exact Option.noConfusion hnone
        · rintro ⟨cm', hcm', hnone⟩
          obtain rfl := Option.some.inj hcm'
          rw [hd] at hnone
          exact Option.noConfusion hnone
        · rintro ⟨msg, hmsg⟩
          exact Option.noConfusion hmsg
        · rintro ⟨cm', blob', hcm', hblob', msg2, hmsg2⟩
          obtain rfl := Option.some.inj hcm'
          rw [hd] at hblob'
          obtain rfl := Option.some.inj hblob'
          rw [hu] at hmsg2
          exact Except.noConfusion hmsg2

/-- Concrete instance of `get_error_taxonomy_C4`: on the empty backend the
read fails `NotFound` (derived through the theorem's first equivalence). -/
theorem get_error_taxonomy_C4_witness :
    ((memStorage sampleOwner).GetInventory emptyStore sampleOld).2
      = some (.k8s (.notFound ⟨"app", "ns"⟩)) :=
  (get_error_taxonomy_C4 sampleOwner emptyStore sampleOld).1.2 rfl

/-- C7 as stated is false: for an inventory whose `Source` and `Revision`
are empty, a successful `ApplyInventory` writes a record with NO
`<group>/source` and NO `<group>/revision` annotation, while the claim
asserts all three annotations are written for every inventory. Concrete
input: the empty inventory at `(app, ns)` under `sampleOwner`. -/
theorem apply_record_shape_C7_counterexample :
    ∃ st', (memStorage sampleOwner).ApplyInventory emptyStore ⟨0⟩ (emptyInventory "app" "ns")
        = .ok st'
      ∧ ∃ cm, st' ⟨"app", "ns"⟩ = some cm
        ∧ cm.Annotations.lookup ("kustomizer.dev" ++ "/source") = none
        ∧ cm.Annotations.lookup ("kustomizer.dev" ++ "/revision") = none := by
  exact ⟨_, mem_apply sampleOwner emptyStore ⟨0⟩ (emptyInventory "app" "ns"),
    appliedConfigMap sampleOwner ⟨0⟩ (emptyInventory "app" "ns"), rfl, rfl, rfl⟩

/-- C7 (amended): a successful `ApplyInventory` writes the record for the
inventory's identity with the marshalled entries under the single fixed
blob key `inventory`, the `<group>/last-applied-time` annotation holding
the RFC3339 UTC rendering of the apply time, and the `<group>/source` and
`<group>/revision` annotations exactly when the corresponding inventory
fields are non-empty. -/
theorem apply_record_shape_C7 (o : Owner) (st : Store) (now : Time) (i : Inventory) :
    ∃ st', (memStorage o).ApplyInventory st now i = .ok st'
      ∧ ∃ cm, st' ⟨i.Name, i.Namespace⟩ = some cm
        ∧ cm.Data = [(inventoryKindName, marshalEntries i.Entries)]
        ∧ cm.Annotations.lookup (o.Group ++ "/last-applied-time") = some now.utcRFC3339
        ∧ cm.Annotations.lookup (o.Group ++ "/source")
            = (if i.Source = "" then none else some i.Source)
        ∧ cm.Annotations.lookup (o.Group ++ "/revision")
            = (if i.Revision = "" then none else some i.Revision) := by
  refine ⟨_, mem_apply o st now i, appliedConfigMap o now i, by simp, rfl, ?_, ?_, ?_⟩ <;>
  · have b1 : ((o.Group ++ "/source") == (o.Group ++ "/last-applied-time")) = false :=
      beq_eq_false_iff_ne.2 fun h => lat_ne_source o.Group h.symm
    have b2 : ((o.Group ++ "/revision") == (o.Group ++ "/last-applied-time")) = false :=
      beq_eq_false_iff_ne.2 fun h => lat_ne_revision o.Group h.symm
    have b3 : ((o.Group ++ "/revision") == (o.Group ++ "/source")) = false :=
      beq_eq_false_iff_ne.2 fun h => revision_ne_source o.Group h
    have b4 : ((o.Group ++ "/source") == (o.Group ++ "/revision")) = false :=
      beq_eq_false_iff_ne.2 fun h => source_ne_revision o.Group h
    by_cases hs : i.Source = "" <;> by_cases hr : i.Revision = "" <;>
      simp [appliedConfigMap, applyAnns, List.lookup, hs, hr, b1, b2, b3, b4]

/-- C9: `ApplyInventory` stores the `<group>/source` annotation (with
value the inventory's source) iff the source is non-empty, likewise for
`<group>/revision`, while `<group>/last-applied-time` is always written —
an empty source or revision is never stored. -/
theorem apply_provenance_iff_C9 (o : Owner) (st : Store) (now : Time) (i : Inventory) :
    ∃ st', (memStorage o).ApplyInventory st now i = .ok st'
      ∧ ∃ cm, st' ⟨i.Name, i.Namespace⟩ = some cm
        ∧ (cm.Annotations.lookup (o.Group ++ "/source") = some i.Source ↔ i.Source ≠ "")
        ∧ (cm.Annotations.lookup (o.Group ++ "/source") = none ↔ i.Source = "")
        ∧ (cm.Annotations.lookup (o.Group ++ "/revision") = some i.Revision ↔ i.Revision ≠ "")
        ∧ (cm.Annotations.lookup (o.Group ++ "/revision") = none ↔ i.Revision = "")
        ∧ cm.Annotations.lookup (o.Group ++ "/last-applied-time") = some now.utcRFC3339 := by
  obtain ⟨st', h1, cm, h2, _, hlat, hsrc, hrev⟩ := apply_record_shape_C7 o st now i
  refine ⟨st', h1, cm, h2, ?_, ?_, ?_, ?_, hlat⟩ <;>
    by_cases hs : i.Source = "" <;> by_cases hr : i.Revision = "" <;>
      simp [hsrc, hrev, hs, hr]

/-- Concrete instance of `apply_provenance_iff_C9`: applying `sampleOld`
(non-empty source `git`) stores the source annotation with value `git`. -/
theorem apply_provenance_iff_C9_witness :
    ∃ st', (memStorage sampleOwner).ApplyInventory emptyStore ⟨0⟩ sampleOld = .ok st'
      ∧ ∃ cm, st' ⟨"app", "ns"⟩ = some cm
        ∧ cm.Annotations.lookup ("kustomizer.dev" ++ "/source") = some "git" := by
  obtain ⟨st', h1, cm, h2, h3, _⟩ :=
    apply_provenance_iff_C9 sampleOwner emptyStore ⟨0⟩ sampleOld
  exact ⟨st', h1, cm, h2, h3.2 (by decide)⟩

/-- C8: frame condition on `GetInventory` — the inventory's name and
namespace are never modified, and after a successful read the source
(resp. revision) equals the stored `<group>/source` (resp.
`<group>/revision`) annotation when present and is otherwise unchanged
from its value before the call. The record's annotation keys are assumed
distinct, as they are for a Go map. -/
theorem get_frame_provenance_C8 (o : Owner) (st : Store) (i : Inventory) :
    ((memStorage o).GetInventory st i).1.Name = i.Name
    ∧ ((memStorage o).GetInventory st i).1.Namespace = i.Namespace
    ∧ (∀ cm, st ⟨i.Name, i.Namespace⟩ = some cm →
        (cm.Annotations.map Prod.fst).Nodup →
        ((memStorage o).GetInventory st i).2 = none →
        ((memStorage o).GetInventory st i).1.Source
            = (cm.Annotations.lookup (o.Group ++ "/source")).getD i.Source
        ∧ ((memStorage o).GetInventory st i).1.Revision
            = (cm.Annotations.lookup (o.Group ++ "/revision")).getD i.Revision) := by
  simp only [getInventory_spec, memStorage, memClient, memGet]
  cases hst : st ⟨i.Name, i.Namespace⟩ with
  | none => simp [hst]
  | some cm =>
    cases hd : cm.Data.lookup inventoryKindName with
    | none => simp [hst, hd]
    | some blob =>
      cases hu : unmarshalEntries blob with
      | error msg => simp [hst, hd, hu]
      | ok entries =>
        simp only [hst, hd, hu]
        refine ⟨foldl_annStep_Name o.Group _ _, foldl_annStep_Namespace o.Group _ _, ?_⟩
        intro cm' hcm' hnodup _
        obtain rfl : cm = cm' := Option.some.inj hcm'
        exact ⟨foldl_annStep_Source o.Group _ _ hnodup,
          foldl_annStep_Revision o.Group _ _ hnodup⟩

/-- Concrete instance of `get_frame_provenance_C8`: reading the record
`sampleStore` holds for `(app, ns)` repopulates the source to `git`. -/
theorem get_frame_provenance_C8_witness :
    ((memStorage sampleOwner).GetInventory sampleStore (emptyInventory "app" "ns")).1.Source
      = "git" := by
  have h := (get_frame_provenance_C8 sampleOwner sampleStore (emptyInventory "app" "ns")).2.2
    (appliedConfigMap sampleOwner ⟨0⟩ sampleOld) rfl (by decide) rfl
  rw [h.1]
  rfl

/-- C10: every record the store touches is built by `newConfigMap`, so it
is addressed by exactly the inventory's `(name, namespace)` and carries
the three fixed labels; consequently, on the in-memory backend,
`ApplyInventory` and `DeleteInventory` leave every other key untouched,
and `GetInventory` and `GetInventoryStaleObjects` depend on the backend
only through that one key. -/
theorem record_addressing_C10 {σ : Type} (c : Client σ) (o : Owner) (st : Store)
    (now : Time) (i : Inventory) (k : ObjectKey) :
    (∀ name ns, ((InventoryStorage.mk c o).newConfigMap name ns).Labels
        = [("app.kubernetes.io/name", name),
           ("app.kubernetes.io/component", inventoryKindName),
           ("app.kubernetes.io/created-by", o.Field)]
      ∧ objectKeyFromObject ((InventoryStorage.mk c o).newConfigMap name ns) = ⟨name, ns⟩)
    ∧ (k ≠ ⟨i.Name, i.Namespace⟩ →
        (∀ st', (memStorage o).ApplyInventory st now i = .ok st' → st' k = st k)
        ∧ ((memStorage o).DeleteInventory st i).1 k = st k)
    ∧ (∀ st2 : Store, st2 ⟨i.Name, i.Namespace⟩ = st ⟨i.Name, i.Namespace⟩ →
        (memStorage o).GetInventory st2 i = (memStorage o).GetInventory st i
        ∧ (memStorage o).GetInventoryStaleObjects st2 i
            = (memStorage o).GetInventoryStaleObjects st i) := by
  refine ⟨fun name ns => ⟨rfl, rfl⟩, fun hk => ⟨?_, ?_⟩, fun st2 h12 => ⟨?_, ?_⟩⟩
  · intro st' h
    rw [mem_apply] at h
    obtain rfl : _ = st' := Except.ok.inj h
    simp [if_neg hk]
  · simp only [InventoryStorage.DeleteInventory, memStorage, memClient, memDelete,
      InventoryStorage.newConfigMap, objectKeyFromObject]
    cases hst : st ⟨i.Name, i.Namespace⟩ <;> simp [hst, K8sErr.IsNotFound, if_neg hk]
  · simp only [getInventory_spec, memStorage, memClient, memGet, h12]
  · have hg : (memStorage o).GetInventory st2 (emptyInventory i.Name i.Namespace)
        = (memStorage o).GetInventory st (emptyInventory i.Name i.Namespace) := by
      simp only [getInventory_spec, memStorage, memClient, memGet, emptyInventory, h12]
    simp [InventoryStorage.GetInventoryStaleObjects, hg]

/-- Concrete instance of `record_addressing_C10`: a delete of `(app, ns)`
leaves the record key `(other, ns)` untouched. -/
theorem record_addressing_C10_witness :
    ((memStorage sampleOwner).DeleteInventory emptyStore sampleOld).1 ⟨"other", "ns"⟩
      = none := by
  have h := (record_addressing_C10 memClient sampleOwner emptyStore ⟨0⟩ sampleOld
    ⟨"other", "ns"⟩).2.1 (by decide)
  exact h.2

end Kustomizer
